import Mathlib

/-!
# Verification of the agent-relay Python SDK core

Shallow embedding of `packages/sdk-py/src/agent_relay/client.py`,
`relay.py` and `builder.py`, together with theorems settling the
frozen claims about the specification.
-/

namespace AgentRelay

/-! ## Python string primitives

Structural (kernel-reducible) translations of the Python `str` methods the
source uses.  Strings are handled through their character lists. -/

/-- Python `s.split(":")[0]`: the part of the string before the first colon. -/
def pySplitColonHead (s : String) : String :=
  (s.data.takeWhile (fun c => ¬ (c = ':'))).asString

/-- Python `s.strip()`: remove leading and trailing whitespace. -/
def pyStrip (s : String) : String :=
  ((s.data.dropWhile Char.isWhitespace).reverse.dropWhile Char.isWhitespace).reverse.asString

/-- Python `s.lower()` (ASCII case, which is all the source compares). -/
def pyLower (s : String) : String :=
  (s.data.map Char.toLower).asString

/-- Python `s.startswith(p)`. -/
def pyStartsWith (s p : String) : Bool :=
  p.data.isPrefixOf s.data

/-! ## CLI-argument shaper (client.py lines 40-64) -/

/-- `_CLI_MODEL_FLAG_CLIS` from client.py: CLIs that accept a `--model` flag. -/
def CLI_MODEL_FLAG_CLIS : List String := ["claude", "codex", "gemini", "goose", "aider"]

/-- `_CLI_DEFAULT_ARGS.get(cli_name, [])` from client.py: per-CLI default argument list. -/
def CLI_DEFAULT_ARGS (cli_name : String) : List String :=
  if cli_name = "codex" then ["-c", "check_for_update_on_startup=false"] else []

/-- `_has_model_arg` from client.py: true when some argument is `--model`
or starts with `--model=`. -/
def has_model_arg (args : List String) : Bool :=
  args.any (fun arg => arg = "--model" || pyStartsWith arg "--model=")

/-- `cli.split(":")[0].strip().lower()` from the first line of
`_build_pty_args_with_model`. -/
def cliKey (cli : String) : String :=
  pyLower (pyStrip (pySplitColonHead cli))

/-- `_build_pty_args_with_model` from client.py.  `model = some ""` behaves
like `none` because Python tests `if not model`. -/
def build_pty_args_with_model (cli : String) (args : List String)
    (model : Option String) : List String :=
  let cli_name := cliKey cli
  let default_args := CLI_DEFAULT_ARGS cli_name
  let base_args := default_args ++ args
  match model with
  | none => base_args
  | some m =>
    if m = "" then base_args
    else if ¬ (cli_name ∈ CLI_MODEL_FLAG_CLIS) then base_args
    else if has_model_arg base_args then base_args
    else "--model" :: m :: base_args

/-! ## Wire envelopes (protocol.py, client.py `_handle_stdout_line` lines 288-349)

The broker writes one JSON value per stdout line.  `JValue` models the result
of `json.loads`; a line that fails to decode is modelled as `none`. -/

/-- Model of a parsed JSON value. -/
inductive JValue where
  | null
  | boolean (b : Bool)
  | num (n : Int)
  | str (s : String)
  | arr (elems : List JValue)
  | obj (fields : List (String × JValue))

/-- `d.get(key)` on a parsed JSON object.  Keys of a Python dict are unique,
so first-match lookup is exact. -/
def jget (fields : List (String × JValue)) (key : String) : Option JValue :=
  match fields with
  | [] => none
  | (k, v) :: rest => if k = key then some v else jget rest key

/-- `PROTOCOL_VERSION` from protocol.py. -/
def PROTOCOL_VERSION : Int := 1

/-- The check `parsed.get("v") != PROTOCOL_VERSION` (negated): the line has
an integer `v` field equal to the protocol version. -/
def isVersionOk (fields : List (String × JValue)) : Bool :=
  match jget fields "v" with
  | some (JValue.num n) => n = PROTOCOL_VERSION
  | _ => false

/-- `self._max_buffer_size` from `AgentRelayClient.__init__` (client.py line 144). -/
def MAX_BUFFER_SIZE : Nat := 1000

/-- How a pending-request future is settled. -/
inductive SettleKind where
  /-- `set_result` with the matching envelope of the expected type. -/
  | ok
  /-- `set_exception(AgentRelayProtocolError ...)` from an `error` envelope. -/
  | protoError
  /-- `set_exception(AgentRelayProcessError ...)`: unexpected response type. -/
  | unexpectedType
  /-- `set_exception` from the scheduled request timeout. -/
  | timedOut
  /-- `set_exception` from `_fail_all_pending` when the process exits. -/
  | exitDrain
deriving DecidableEq

/-- The part of the client state `_handle_stdout_line` reads and writes:
the bounded event buffer and the pending table (request_id to the expected
response type). -/
structure LineClientState where
  event_buffer : List JValue
  pending : List (String × String)

/-- The externally observable effect of handling one stdout line. -/
inductive LineEffect where
  /-- The line was silently discarded. -/
  | dropped
  /-- The payload was appended to the event buffer and handed to every
  event listener in registration order. -/
  | eventDispatched (payload : JValue)
  /-- A pending request was popped and its future settled. -/
  | responseSettled (request_id : String) (kind : SettleKind)

/-- Append one event to the ring buffer, evicting the oldest entry when the
cap is exceeded (`append` then conditional `pop(0)` in client.py 304-306). -/
def pushEvent (buf : List JValue) (e : JValue) : List JValue :=
  let buf := buf ++ [e]
  if buf.length > MAX_BUFFER_SIZE then buf.drop 1 else buf

/-- First-match lookup in the pending table (Python dict access). -/
def lookupPending : List (String × String) → String → Option String
  | [], _ => none
  | (k, v) :: rest, rid => if k = rid then some v else lookupPending rest rid

/-- `self._pending.pop(request_id, None)` (removal part). -/
def removePending (l : List (String × String)) (rid : String) : List (String × String) :=
  l.filter (fun e => e.1 != rid)

/-- `AgentRelayClient._handle_stdout_line` (client.py lines 288-349) given the
parsed form of the line.  A missing or non-string `request_id` can never match
a pending key (pending keys are the generated `req_<n>` strings), and a falsy
one returns early, so both are collapsed to `dropped`. -/
def handle_stdout_line (st : LineClientState) (parsed : Option JValue) :
    LineClientState × LineEffect :=
  match parsed with
  | none => (st, .dropped)
  | some p =>
    match p with
    | .obj fields =>
      if ¬ (isVersionOk fields = true) then (st, .dropped)
      else
        match jget fields "type" with
        | some (.str t) =>
          let payload := (jget fields "payload").getD (.obj [])
          if t = "event" then
            ({ st with event_buffer := pushEvent st.event_buffer payload },
              .eventDispatched payload)
          else
            match jget fields "request_id" with
            | some (.str rid) =>
              if rid = "" then (st, .dropped)
              else
                match lookupPending st.pending rid with
                | none => (st, .dropped)
                | some expected =>
                  let kind := if t = "error" then SettleKind.protoError
                    else if ¬ (t = expected) then SettleKind.unexpectedType
                    else SettleKind.ok
                  ({ st with pending := removePending st.pending rid },
                    .responseSettled rid kind)
            | _ => (st, .dropped)
        | _ => (st, .dropped)
    | _ => (st, .dropped)

/-- The payload carried by a line exactly when `_handle_stdout_line` treats
it as an `event` envelope. -/
def eventPayload : Option JValue → Option JValue
  | some (.obj fields) =>
    if isVersionOk fields = true then
      match jget fields "type" with
      | some (.str t) =>
        if t = "event" then some ((jget fields "payload").getD (.obj [])) else none
      | _ => none
    else none
  | _ => none

/-- Fold `_handle_stdout_line` over a sequence of stdout lines. -/
def processLines (st : LineClientState) (inputs : List (Option JValue)) : LineClientState :=
  inputs.foldl (fun s p => (handle_stdout_line s p).1) st

/-! ## send_message fallback (client.py lines 486-511) -/

/-- Errors raised by the request helpers: `AgentRelayProtocolError` (an
`error` envelope from the broker) and `AgentRelayProcessError`. -/
inductive ClientError where
  | protocolError (code : String) (message : String) (retryable : Bool)
  | processError (message : String)
deriving DecidableEq

/-- The synthetic benign result `send_message` substitutes when the broker
reports `unsupported_operation`. -/
def unsupportedOperationResult : JValue :=
  .obj [("event_id", .str "unsupported_operation"), ("targets", .arr [])]

/-- The try/except wrapper of `AgentRelayClient.send_message` as a function
of the outcome of the underlying `_request_ok("send_message", payload)`. -/
def send_message_result (outcome : Except ClientError JValue) : Except ClientError JValue :=
  match outcome with
  | .error (.protocolError code msg r) =>
    if code = "unsupported_operation" then .ok unsupportedOperationResult
    else .error (.protocolError code msg r)
  | other => other

/-! ## Request correlation machine

The atomic steps of `_send_request` (client.py 353-387), the response branch
of `_handle_stdout_line` (311-342), the `on_timeout` callback (370-378) and
`_fail_all_pending` (344-349, invoked by `_monitor_exit`).  Each step runs
without suspension inside the single-threaded event loop, so an execution is
an arbitrary interleaving = a list of steps.  Table keys are the sequence
numbers behind the generated `req_<n>` id strings (`mkRequestId` renders
them); distinct numbers render to distinct id strings, and inbound ids that
match no generated id hit the lookup-miss branch either way. -/

/-- The id string `f"req_\x7bn\x7d"` assigned to the n-th request. -/
def mkRequestId (n : Nat) : String := "req_" ++ toString n

/-- State of the request-correlation subsystem: the monotone sequence
counter, the pending table (id to expected response type), and every future
ever created, in creation order, with its settlement (none = unsettled). -/
structure ReqMachine where
  request_seq : Nat
  pending : List (Nat × String)
  futures : List (Nat × Option SettleKind)

/-- Fields set in `__init__`: `_request_seq = 0`, `_pending = \x7b\x7d`. -/
def ReqMachine.init : ReqMachine := ⟨0, [], []⟩

/-- The atomic operations that touch the pending table. -/
inductive ClientOp where
  /-- `_send_request`: bump the sequence, insert the pending entry,
  schedule the timeout. -/
  | sendRequest (expected_type : String)
  /-- The stdout reader observes an inbound envelope of type `type\x5f`
  carrying this request id. -/
  | inboundResponse (rid : Nat) (type_ : String)
  /-- The scheduled `on_timeout` callback for this request fires. -/
  | timeoutFire (rid : Nat)
  /-- `_monitor_exit` observed process termination: `_fail_all_pending`. -/
  | processExit

/-- Python dict lookup in the pending table. -/
def lookupNat : List (Nat × String) → Nat → Option String
  | [], _ => none
  | (k, v) :: rest, rid => if k = rid then some v else lookupNat rest rid

/-- `self._pending.pop(rid, None)`: remove the binding if present. -/
def removeNat : List (Nat × String) → Nat → List (Nat × String)
  | [], _ => []
  | (k, v) :: rest, rid =>
    if k = rid then removeNat rest rid else (k, v) :: removeNat rest rid

/-- Settlement lookup among the created futures. -/
def lookupFut : List (Nat × Option SettleKind) → Nat → Option (Option SettleKind)
  | [], _ => none
  | (k, v) :: rest, rid => if k = rid then some v else lookupFut rest rid

/-- `if not future.done(): future.set_...(k)` applied to the future of
request `rid`. -/
def settleIfUnsettled : List (Nat × Option SettleKind) → Nat → SettleKind →
    List (Nat × Option SettleKind)
  | [], _, _ => []
  | (i, s) :: rest, rid, k =>
    (if i = rid then (if s = none then (i, some k) else (i, s)) else (i, s)) ::
      settleIfUnsettled rest rid k

/-- `_fail_all_pending`: every future whose request is still pending and not
yet done is failed with the process-exit error. -/
def drainFutures : List (Nat × Option SettleKind) → List (Nat × String) →
    List (Nat × Option SettleKind)
  | [], _ => []
  | (i, s) :: rest, p =>
    (if (lookupNat p i).isSome = true
     then (if s = none then (i, some SettleKind.exitDrain) else (i, s))
     else (i, s)) :: drainFutures rest p

/-- The effect of a guarded settle on a stored settlement value. -/
def settleVal (v : Option (Option SettleKind)) (k : SettleKind) : Option (Option SettleKind) :=
  match v with
  | some none => some (some k)
  | v => v

/-- One atomic step.  The response branch of `_handle_stdout_line` settles
without a `done()` check; the invariant below shows the future of a request
still in the table is always unsettled, so the guarded settle is exact. -/
def ReqMachine.step (st : ReqMachine) (op : ClientOp) : ReqMachine :=
  match op with
  | .sendRequest exp =>
    let n := st.request_seq + 1
    { request_seq := n,
      pending := st.pending ++ [(n, exp)],
      futures := st.futures ++ [(n, none)] }
  | .inboundResponse rid t =>
    match lookupNat st.pending rid with
    | none => st
    | some expected =>
      let k := if t = "error" then SettleKind.protoError
        else if ¬ (t = expected) then SettleKind.unexpectedType
        else SettleKind.ok
      { st with pending := removeNat st.pending rid,
                futures := settleIfUnsettled st.futures rid k }
  | .timeoutFire rid =>
    { st with pending := removeNat st.pending rid,
              futures := settleIfUnsettled st.futures rid SettleKind.timedOut }
  | .processExit =>
    { st with pending := [],
              futures := drainFutures st.futures st.pending }

/-- Run an interleaving from the initial state. -/
def ReqMachine.run (ops : List ClientOp) : ReqMachine :=
  ops.foldl ReqMachine.step ReqMachine.init

/-- The request-correlation invariant: the created futures are exactly the
requests `1 .. request_seq` in creation order, and a request id is in the
pending table exactly while its future is unsettled. -/
def ReqInv (st : ReqMachine) : Prop :=
  st.futures.map Prod.fst = (List.range st.request_seq).map (fun i => i + 1)
  ∧ (∀ rid : Nat, (lookupNat st.pending rid).isSome = true ↔
      lookupFut st.futures rid = some none)
  ∧ (st.pending.map Prod.fst).Nodup

/-! ## Shutdown (client.py `AgentRelayClient.shutdown` lines 536-566,
`_monitor_exit` lines 257-265) -/

/-- How the broker process behaves while `shutdown()` waits on it. -/
inductive BrokerShutdownBehavior where
  /-- The process exits within the shutdown-wait timeout.  The awaited exit
  future is resolved by `_monitor_exit` only after it has failed and cleared
  every pending request, so observing it implies the table is drained. -/
  | exitsDuringWait
  /-- The exit wait times out; the process dies within the 2 s wait that
  follows `terminate()`.  Whether `_monitor_exit` has also run again before
  `shutdown()` resumes depends on event-loop scheduling. -/
  | exitsOnTerminate (monitorRanBeforeReturn : Bool)
  /-- Both the exit wait and the terminate wait time out; `kill()` is sent
  and `shutdown()` returns at once, before any exit is observed. -/
  | ignoresSignals

/-- The client state `shutdown()` reads and writes.  `pending` lists the
request ids of other in-flight requests (whose own timeouts have not yet
fired); `alive` is whether the child process has been observed to exit. -/
structure ShutdownClientState where
  has_process : Bool
  alive : Bool
  pending : List Nat
  started : Bool

/-- `AgentRelayClient.shutdown`.  Its own best-effort `shutdown` request is
created and settled (response, timeout or exit drain) before the code moves
on and its errors are swallowed, so the other pending entries are untouched
by that phase; the function is total (never raises).  `shutdown()` itself
never assigns `self._pending`: the table is emptied only when
`_monitor_exit` observes the exit and runs `_fail_all_pending`. -/
def clientShutdown (st : ShutdownClientState) (beh : BrokerShutdownBehavior) :
    ShutdownClientState :=
  if st.has_process = false then st
  else
    let st1 :=
      match beh with
      | .exitsDuringWait => { st with alive := false, pending := [] }
      | .exitsOnTerminate monitorRan =>
        { st with alive := false, pending := if monitorRan then [] else st.pending }
      | .ignoresSignals => st
    { st1 with has_process := false, started := false }

/-! ## Agent wait primitives (relay.py `Agent.wait_for_exit` lines 104-121,
`Agent.wait_for_idle` lines 123-140) -/

/-- What the entry of a wait primitive does before any awaiting: an
immediate return value, or the installation of a resolver future. -/
structure WaitEntry where
  immediate : Option String
  installs_resolver : Bool
deriving DecidableEq

/-- The pre-await part of `Agent.wait_for_exit`: a name absent from the
registry returns "exited" at once; then `timeout_ms == 0` returns "timeout"
at once; otherwise a fresh future is stored in the exit-resolver table. -/
def wait_for_exit_entry (known_agents : List String) (name : String)
    (timeout_ms : Option Int) : WaitEntry :=
  if ¬ (known_agents.contains name = true) then ⟨some "exited", false⟩
  else if timeout_ms = some 0 then ⟨some "timeout", false⟩
  else ⟨none, true⟩

/-- The pre-await part of `Agent.wait_for_idle`, identical in shape. -/
def wait_for_idle_entry (known_agents : List String) (name : String)
    (timeout_ms : Option Int) : WaitEntry :=
  if ¬ (known_agents.contains name = true) then ⟨some "exited", false⟩
  else if timeout_ms = some 0 then ⟨some "timeout", false⟩
  else ⟨none, true⟩

/-! ## Workflow runner adapter (builder.py lines 62-69 and 446-608)

`_execute_cli` consumes the runner output line by line, parses each line
with `_parse_cli_event` (lines 473-520), and resolves the final status and
error with `_resolve_status` (586-592) and `_resolve_error` (595-608).
`run_id` is initialised to the empty string and never reassigned, and the
step-result dictionary is not part of the claim, so both are omitted here.
All events of one run are parsed with the same (empty) run id. -/

/-- The typed workflow events of builder.py / types.py. -/
inductive WorkflowEvent where
  | runStarted
  | runCompleted
  | runFailed (error : String)
  | runCancelled
  | stepStarted (step_name : String)
  | stepCompleted (step_name : String)
  | stepFailed (step_name : String) (error : String)
  | stepSkipped (step_name : String)
  | stepRetrying (step_name : String) (attempt : Option Nat)
  | stepNudged (step_name : String) (nudge_count : Option Nat)
  | stepForceReleased (step_name : String)
deriving DecidableEq

/-- The status alternation of `_RUN_LINE_RE`. -/
def RUN_STATUSES : List String := ["started", "completed", "failed", "cancelled"]

/-- The status alternation of `_STEP_LINE_RE`. -/
def STEP_STATUSES : List String :=
  ["started", "completed", "failed", "skipped", "retrying", "nudged", "force-released"]

/-- Match `(status)(?::\s*(.*))?$` at the given position: one of the given
status tokens, followed by the end of the line (no detail) or by a colon,
optional whitespace, and the detail.  The tokens are mutually prefix-free,
so trying them in order is exact. -/
def statusAndDetail (cs : List Char) : List String → Option (String × Option String)
  | [] => none
  | st :: rest =>
    if st.data.isPrefixOf cs then
      match cs.drop st.data.length with
      | [] => some (st, none)
      | c :: d =>
        if c = ':' then some (st, some ((d.dropWhile Char.isWhitespace).asString))
        else statusAndDetail cs rest
    else statusAndDetail cs rest

/-- `^\[run\]\s+(status)(?::\s*(.*))?$` (`_RUN_LINE_RE`): literal prefix,
at least one whitespace, then status and optional detail. -/
def parse_run_groups (line : String) : Option (String × Option String) :=
  let cs := line.data
  if ("[run]".data).isPrefixOf cs then
    match cs.drop 5 with
    | c :: tail =>
      if c.isWhitespace then
        statusAndDetail ((c :: tail).dropWhile Char.isWhitespace) RUN_STATUSES
      else none
    | [] => none
  else none

/-- `\s+(status)...` after a candidate step name: the next char must be
whitespace (the statuses start with letters, so the greedy run is exact). -/
def checkAfterName (rest : List Char) : Option (String × Option String) :=
  match rest with
  | c :: _ =>
    if c.isWhitespace then statusAndDetail (rest.dropWhile Char.isWhitespace) STEP_STATUSES
    else none
  | [] => none

/-- The lazy `(.+?)` of `_STEP_LINE_RE`: extend the candidate name one
character at a time and accept the first split whose remainder matches
`\s+(status)(?::\s*(.*))?$`. -/
def stepScan : List Char → List Char → Option (String × String × Option String)
  | _, [] => none
  | acc, c :: rest =>
    match checkAfterName rest with
    | some (st, d) => some ((acc ++ [c]).asString, st, d)
    | none => stepScan (acc ++ [c]) rest

/-- `^\[step\]\s+(.+?)\s+(status)(?::\s*(.*))?$` (`_STEP_LINE_RE`) with
Python backtracking semantics: the name normally starts right after the
maximal whitespace run (`\s+` is greedy, names are found shortest-first by
the lazy group); when no such split matches but the status sits directly
after the run, backtracking shortens `\s+` so that, for a run of length
w >= 3, the single whitespace character at index w-2 becomes the name
(checked against CPython `re` on the boundary inputs). -/
def parse_step_groups (line : String) : Option (String × String × Option String) :=
  let cs := line.data
  if ("[step]".data).isPrefixOf cs then
    match cs.drop 6 with
    | c :: tail =>
      if c.isWhitespace then
        let w := (c :: tail).takeWhile Char.isWhitespace
        let body := (c :: tail).dropWhile Char.isWhitespace
        match stepScan [] body with
        | some r => some r
        | none =>
          if 3 ≤ w.length then
            match statusAndDetail body STEP_STATUSES with
            | some (st, d) => some (((w.drop (w.length - 2)).take 1).asString, st, d)
            | none => none
          else none
      else none
    | [] => none
  else none

/-- First maximal digit run of a string (`_INT_RE.search`). -/
def firstDigitRun : List Char → Option (List Char)
  | [] => none
  | c :: rest =>
    if c.isDigit then some (c :: rest.takeWhile Char.isDigit) else firstDigitRun rest

/-- Digits to the number they denote (`int(...)`). -/
def digitsToNat (cs : List Char) : Nat :=
  cs.foldl (fun acc c => acc * 10 + (c.toNat - 48)) 0

/-- `_extract_int`: `None` for a missing or empty text, else the first run
of digits as a number. -/
def extract_int (text : Option String) : Option Nat :=
  match text with
  | none => none
  | some s => if s = "" then none else (firstDigitRun s.data).map digitsToNat

/-- Python `detail or default` on an optional capture. -/
def pyOr (detail : Option String) (default : String) : String :=
  match detail with
  | none => default
  | some s => if s = "" then default else s

/-- `_parse_cli_event` (builder.py lines 473-520). -/
def parse_cli_event (line : String) : Option WorkflowEvent :=
  match parse_run_groups line with
  | some (status, detail) =>
    if status = "started" then some WorkflowEvent.runStarted
    else if status = "completed" then some WorkflowEvent.runCompleted
    else if status = "failed" then
      some (WorkflowEvent.runFailed (pyOr detail "Workflow failed"))
    else if status = "cancelled" then some WorkflowEvent.runCancelled
    else none
  | none =>
    match parse_step_groups line with
    | some (step_name, status, detail) =>
      if status = "started" then some (WorkflowEvent.stepStarted step_name)
      else if status = "completed" then some (WorkflowEvent.stepCompleted step_name)
      else if status = "failed" then
        some (WorkflowEvent.stepFailed step_name (pyOr detail "Step failed"))
      else if status = "skipped" then some (WorkflowEvent.stepSkipped step_name)
      else if status = "retrying" then
        some (WorkflowEvent.stepRetrying step_name (extract_int detail))
      else if status = "nudged" then
        some (WorkflowEvent.stepNudged step_name (extract_int detail))
      else if status = "force-released" then
        some (WorkflowEvent.stepForceReleased step_name)
      else none
    | none => none

/-- Discriminators used by the resolvers. -/
def isRunCancelled : WorkflowEvent → Bool
  | WorkflowEvent.runCancelled => true
  | _ => false

def isRunFailed : WorkflowEvent → Bool
  | WorkflowEvent.runFailed _ => true
  | _ => false

/-- `isinstance(event, RunFailedEvent) and event.error` (truthiness). -/
def isRunFailedWithError : WorkflowEvent → Bool
  | WorkflowEvent.runFailed e => e != ""
  | _ => false

/-- `_resolve_status` (builder.py 586-592). -/
def resolve_status (return_code : Int) (events : List WorkflowEvent) : String :=
  if events.any isRunCancelled then "cancelled"
  else if return_code = 0 then "completed"
  else "failed"

/-- `_resolve_error` (builder.py 595-608), taking the raw output lines.  The
source iterates `reversed(output.splitlines())` where
`output = "\n".join(lines).strip()` and strips each line before testing it,
which selects exactly the last line whose strip is non-empty, so the raw
line list carries the same information. -/
def resolve_error (lines : List String) (events : List WorkflowEvent)
    (return_code : Int) : Option String :=
  if return_code = 0 then none
  else
    match events.reverse.find? isRunFailedWithError with
    | some (WorkflowEvent.runFailed e) => some e
    | _ =>
      match lines.reverse.find? (fun l => pyStrip l != "") with
      | some l => some (pyStrip l)
      | none => some "Workflow failed"

/-- The status/error/events core of `_execute_cli` (builder.py 446-471):
events are the parsed lines in order; status and error come from the
resolvers.  The step-result table and the constant empty `run_id` are not
modelled. -/
structure WorkflowResultCore where
  status : String
  error : Option String
  events : List WorkflowEvent
deriving DecidableEq

def execute_cli (lines : List String) (return_code : Int) : WorkflowResultCore :=
  let events := lines.filterMap parse_cli_event
  { status := resolve_status return_code events,
    error := resolve_error lines events return_code,
    events := events }

/-! ## Facade resolver tables (relay.py `Agent.wait_for_exit` lines 104-121,
`Agent.wait_for_idle` lines 123-140, `AgentRelay._wire_events` lines 663-735)

A Python dict holds at most one value per key, so the two resolver tables
are modelled as functions from agent name to the stored future (if any).
Futures are identified by creation index.  A `wait_for_exit` /
`wait_for_idle` call that passes the entry guards creates a fresh future
and assigns it to the name, overwriting any stored one; the `_wire_events`
handler pops the stored future and resolves it on agent_exited /
agent_released / agent_idle; a waiter whose `asyncio.wait_for` expires pops
the table entry for its name on the way out without settling anything.
(`AgentRelay.shutdown` likewise resolves only the stored futures.) -/

structure RelayWaitState where
  next_future : Nat
  exit_resolvers : String → Option Nat
  idle_resolvers : String → Option Nat
  futures : Nat → Option (Option String)

/-- Empty tables, no futures created yet. -/
def RelayWaitState.init : RelayWaitState :=
  ⟨0, fun _ => none, fun _ => none, fun _ => none⟩

/-- The atomic steps that touch the resolver tables. -/
inductive RelayOp where
  /-- `wait_for_exit` past its guards: create a future and store it. -/
  | startWaitExit (name : String)
  /-- `wait_for_idle` past its guards. -/
  | startWaitIdle (name : String)
  /-- The `asyncio.wait_for` of an exit waiter timed out:
  `self._relay._exit_resolvers.pop(self._name, None)`. -/
  | exitWaitTimeout (name : String)
  /-- The idle-waiter timeout. -/
  | idleWaitTimeout (name : String)
  /-- `_wire_events`, `kind == "agent_exited"`. -/
  | evAgentExited (name : String)
  /-- `_wire_events`, `kind == "agent_released"`. -/
  | evAgentReleased (name : String)
  /-- `_wire_events`, `kind == "agent_idle"`. -/
  | evAgentIdle (name : String)

/-- Dict assignment `d[name] = fid`. -/
def fSet (d : String → Option Nat) (name : String) (fid : Nat) : String → Option Nat :=
  fun x => if x = name then some fid else d x

/-- `d.pop(name, None)` (removal part). -/
def fPop (d : String → Option Nat) (name : String) : String → Option Nat :=
  fun x => if x = name then none else d x

/-- `if future and not future.done(): future.set_result(v)`. -/
def fSettle (futures : Nat → Option (Option String)) (fid : Nat) (v : String) :
    Nat → Option (Option String) :=
  fun g => if g = fid then
      (match futures fid with
       | some none => some (some v)
       | w => w)
    else futures g

/-- Pop-and-resolve applied to the future stored for `name`, if any. -/
def fSettleStored (futures : Nat → Option (Option String)) (d : String → Option Nat)
    (name : String) (v : String) : Nat → Option (Option String) :=
  match d name with
  | some fid => fSettle futures fid v
  | none => futures

def RelayWaitState.step (st : RelayWaitState) (op : RelayOp) : RelayWaitState :=
  match op with
  | .startWaitExit name =>
    { st with next_future := st.next_future + 1,
              exit_resolvers := fSet st.exit_resolvers name st.next_future,
              futures := fun g => if g = st.next_future then some none else st.futures g }
  | .startWaitIdle name =>
    { st with next_future := st.next_future + 1,
              idle_resolvers := fSet st.idle_resolvers name st.next_future,
              futures := fun g => if g = st.next_future then some none else st.futures g }
  | .exitWaitTimeout name =>
    { st with exit_resolvers := fPop st.exit_resolvers name }
  | .idleWaitTimeout name =>
    { st with idle_resolvers := fPop st.idle_resolvers name }
  | .evAgentExited name =>
    { st with exit_resolvers := fPop st.exit_resolvers name,
              idle_resolvers := fPop st.idle_resolvers name,
              futures := fSettleStored
                (fSettleStored st.futures st.exit_resolvers name "exited")
                st.idle_resolvers name "exited" }
  | .evAgentReleased name =>
    { st with exit_resolvers := fPop st.exit_resolvers name,
              idle_resolvers := fPop st.idle_resolvers name,
              futures := fSettleStored
                (fSettleStored st.futures st.exit_resolvers name "released")
                st.idle_resolvers name "exited" }
  | .evAgentIdle name =>
    { st with idle_resolvers := fPop st.idle_resolvers name,
              futures := fSettleStored st.futures st.idle_resolvers name "idle" }

def RelayWaitState.run (ops : List RelayOp) : RelayWaitState :=
  ops.foldl RelayWaitState.step RelayWaitState.init

/-- The resolver invariant: futures beyond the counter do not exist yet;
every stored future is unsettled; and a future is stored in at most one
slot across both tables. -/
def RelayInv (st : RelayWaitState) : Prop :=
  (∀ f, st.next_future ≤ f → st.futures f = none)
  ∧ (∀ name f, st.exit_resolvers name = some f → st.futures f = some none)
  ∧ (∀ name f, st.idle_resolvers name = some f → st.futures f = some none)
  ∧ (∀ n1 n2 f, st.exit_resolvers n1 = some f → st.exit_resolvers n2 = some f → n1 = n2)
  ∧ (∀ n1 n2 f, st.idle_resolvers n1 = some f → st.idle_resolvers n2 = some f → n1 = n2)
  ∧ (∀ n1 n2 f, st.exit_resolvers n1 = some f → st.idle_resolvers n2 = some f → False)

/-! ## Theorems: event buffering and dispatch -/

theorem rtake_of_length_le {α : Type _} {l : List α} {n : Nat} (h : l.length ≤ n) :
    l.rtake n = l := by
  simp [List.rtake, Nat.sub_eq_zero_of_le h]

theorem length_rtake_le {α : Type _} (l : List α) (n : Nat) :
    (l.rtake n).length ≤ n := by
  simp only [List.rtake, List.length_drop]
  omega

/-- One buffer push is exactly "keep the most recent cap-many events". -/
theorem pushEvent_eq_rtake (buf : List JValue) (e : JValue)
    (h : buf.length ≤ MAX_BUFFER_SIZE) :
    pushEvent buf e = (buf ++ [e]).rtake MAX_BUFFER_SIZE := by
  unfold pushEvent
  by_cases hlen : (buf ++ [e]).length > MAX_BUFFER_SIZE
  · have hl : buf.length = MAX_BUFFER_SIZE := by
      simp only [List.length_append, List.length_singleton] at hlen
      omega
    simp only [hlen, if_pos]
    simp [List.rtake, List.length_append, hl]
  · simp only [hlen, if_neg, not_false_eq_true]
    rw [rtake_of_length_le (by omega)]

theorem rtake_append_rtake {α : Type _} (l r : List α) (n : Nat) :
    (l.rtake n ++ r).rtake n = (l ++ r).rtake n := by
  simp only [List.rtake_eq_reverse_take_reverse, List.reverse_append, List.reverse_reverse]
  congr 1
  rw [List.take_append_eq_append_take, List.take_append_eq_append_take, List.take_take,
    Nat.min_eq_left (Nat.sub_le _ _)]

/-- The state effect of one stdout line on the event buffer: unchanged unless
the line is a valid event envelope, in which case its payload is pushed. -/
theorem handle_stdout_line_buffer (st : LineClientState) (p : Option JValue) :
    (handle_stdout_line st p).1.event_buffer =
      (match eventPayload p with
       | some e => pushEvent st.event_buffer e
       | none => st.event_buffer) := by
  cases p with
  | none => rfl
  | some v =>
    cases v with
    | obj fields =>
      by_cases hv : isVersionOk fields = true
      · cases ht : jget fields "type" with
        | none => simp [handle_stdout_line, eventPayload, hv, ht]
        | some tv =>
          cases tv with
          | str t =>
            by_cases hte : t = "event"
            · simp [handle_stdout_line, eventPayload, hv, ht, hte]
            · simp only [handle_stdout_line, eventPayload, hv, ht, hte, not_true,
                not_false_eq_true, if_neg, if_pos, if_false, ite_false]
              split <;> try rfl
              all_goals (split <;> try rfl)
              all_goals (split <;> rfl)
          | null => simp [handle_stdout_line, eventPayload, hv, ht]
          | boolean b => simp [handle_stdout_line, eventPayload, hv, ht]
          | num n => simp [handle_stdout_line, eventPayload, hv, ht]
          | arr xs => simp [handle_stdout_line, eventPayload, hv, ht]
          | obj f2 => simp [handle_stdout_line, eventPayload, hv, ht]
      · simp [handle_stdout_line, eventPayload, hv]
    | null => rfl
    | boolean b => rfl
    | num n => rfl
    | str s => rfl
    | arr xs => rfl

/-- Fold characterisation of the buffer over any stdout line sequence. -/
theorem processLines_buffer (inputs : List (Option JValue)) (st : LineClientState)
    (h : st.event_buffer.length ≤ MAX_BUFFER_SIZE) :
    (processLines st inputs).event_buffer =
      (st.event_buffer ++ inputs.filterMap eventPayload).rtake MAX_BUFFER_SIZE := by
  induction inputs generalizing st with
  | nil => simp [processLines, rtake_of_length_le h]
  | cons p rest ih =>
    have hstep : processLines st (p :: rest) = processLines (handle_stdout_line st p).1 rest := by
      simp [processLines]
    rw [hstep]
    have hb := handle_stdout_line_buffer st p
    cases hep : eventPayload p with
    | none =>
      have hb2 : (handle_stdout_line st p).1.event_buffer = st.event_buffer := by
        rw [hep] at hb; exact hb
      rw [ih _ (by rw [hb2]; exact h), hb2]
      simp [hep]
    | some e =>
      have hb2 : (handle_stdout_line st p).1.event_buffer = pushEvent st.event_buffer e := by
        rw [hep] at hb; exact hb
      have hpe : (handle_stdout_line st p).1.event_buffer =
          (st.event_buffer ++ [e]).rtake MAX_BUFFER_SIZE := by
        rw [hb2, pushEvent_eq_rtake _ _ h]
      rw [ih _ (by rw [hpe]; exact length_rtake_le _ _), hpe]
      rw [rtake_append_rtake, List.append_assoc]
      simp [hep]

/-- C7.  Starting from the initial (empty) buffer, after any sequence of
stdout lines the event buffer holds exactly the most recent
`MAX_BUFFER_SIZE`-many event payloads in arrival order, and its size never
exceeds the cap of 1000. -/
theorem claim_C7_buffer_bounded (inputs : List (Option JValue)) :
    (processLines ⟨[], []⟩ inputs).event_buffer =
      (inputs.filterMap eventPayload).rtake MAX_BUFFER_SIZE
    ∧ (processLines ⟨[], []⟩ inputs).event_buffer.length ≤ 1000 := by
  have h := processLines_buffer inputs ⟨[], []⟩ (by simp)
  simp only [List.nil_append] at h
  refine ⟨h, ?_⟩
  rw [h]
  exact length_rtake_le _ _

/-- C4, counterexample.  A valid `event` envelope whose payload has no
`kind` field is NOT dropped: handling the line
`\x7b"v":1,"type":"event","payload":\x7b"data":"x"\x7d\x7d` appends the
payload to the event buffer and dispatches it to the listeners. -/
theorem claim_C4_counterexample :
    (jget [("data", JValue.str "x")] "kind" = none)
    ∧ ¬ ((handle_stdout_line ⟨[], []⟩
          (some (JValue.obj [("v", JValue.num 1), ("type", JValue.str "event"),
            ("payload", JValue.obj [("data", JValue.str "x")])]))).1.event_buffer = []
        ∧ (handle_stdout_line ⟨[], []⟩
          (some (JValue.obj [("v", JValue.num 1), ("type", JValue.str "event"),
            ("payload", JValue.obj [("data", JValue.str "x")])]))).2 = LineEffect.dropped) := by
  constructor
  · rfl
  · intro hcontra
    have hb : (handle_stdout_line ⟨[], []⟩
        (some (JValue.obj [("v", JValue.num 1), ("type", JValue.str "event"),
          ("payload", JValue.obj [("data", JValue.str "x")])]))).1.event_buffer =
        [JValue.obj [("data", JValue.str "x")]] := by rfl
    rw [hb] at hcontra
    exact absurd hcontra.1 (by simp)

/-- C4, amended.  Every stdout line decoding to a valid envelope of type
`event` is appended to the event buffer (with cap eviction) and dispatched
to the event listeners, whether or not its payload carries a `kind` field;
the handler never consults the payload `kind`. -/
theorem claim_C4_amended (st : LineClientState) (fields : List (String × JValue))
    (hv : isVersionOk fields = true)
    (ht : jget fields "type" = some (JValue.str "event")) :
    handle_stdout_line st (some (JValue.obj fields)) =
      ({ st with event_buffer :=
          pushEvent st.event_buffer ((jget fields "payload").getD (JValue.obj [])) },
        LineEffect.eventDispatched ((jget fields "payload").getD (JValue.obj []))) := by
  simp [handle_stdout_line, hv, ht]

/-- C4 witness: the amended theorem at the concrete kindless event line. -/
theorem claim_C4_witness :
    handle_stdout_line ⟨[], []⟩
        (some (JValue.obj [("v", JValue.num 1), ("type", JValue.str "event"),
          ("payload", JValue.obj [("data", JValue.str "x")])])) =
      ({ event_buffer := pushEvent [] (JValue.obj [("data", JValue.str "x")]),
         pending := [] },
        LineEffect.eventDispatched (JValue.obj [("data", JValue.str "x")])) :=
  claim_C4_amended ⟨[], []⟩
    [("v", JValue.num 1), ("type", JValue.str "event"),
      ("payload", JValue.obj [("data", JValue.str "x")])]
    (by rfl) (by rfl)

/-! ## Theorems: send_message fallback -/

/-- C8.  A `send_message` protocol error with code `unsupported_operation`
is converted into the synthetic benign result; every protocol error with a
different code, every process error, and every success pass through
unchanged. -/
theorem claim_C8_send_message_fallback :
    (∀ (msg : String) (r : Bool),
      send_message_result (Except.error (ClientError.protocolError "unsupported_operation" msg r)) =
        Except.ok unsupportedOperationResult)
    ∧ (∀ (code msg : String) (r : Bool), ¬ (code = "unsupported_operation") →
        send_message_result (Except.error (ClientError.protocolError code msg r)) =
          Except.error (ClientError.protocolError code msg r))
    ∧ (∀ (msg : String),
        send_message_result (Except.error (ClientError.processError msg)) =
          Except.error (ClientError.processError msg))
    ∧ (∀ (v : JValue), send_message_result (Except.ok v) = Except.ok v) := by
  refine ⟨fun msg r => by simp [send_message_result], fun code msg r hc => ?_,
    fun msg => rfl, fun v => rfl⟩
  simp [send_message_result, hc]

/-- C8 witness: the fallback theorem at concrete error values. -/
theorem claim_C8_witness :
    send_message_result (Except.error (ClientError.protocolError "unsupported_operation" "m" false)) =
      Except.ok unsupportedOperationResult
    ∧ send_message_result (Except.error (ClientError.protocolError "agent_not_found" "m" false)) =
      Except.error (ClientError.protocolError "agent_not_found" "m" false) :=
  ⟨claim_C8_send_message_fallback.1 "m" false,
    claim_C8_send_message_fallback.2.1 "agent_not_found" "m" false (by decide)⟩

/-! ## Theorems: request correlation -/

theorem lookupNat_append (l1 l2 : List (Nat × String)) (r : Nat) :
    lookupNat (l1 ++ l2) r =
      (match lookupNat l1 r with
       | some v => some v
       | none => lookupNat l2 r) := by
  induction l1 with
  | nil => rfl
  | cons e rest ih =>
    obtain ⟨k, v⟩ := e
    by_cases h : k = r <;> simp [lookupNat, h, ih]

theorem lookupFut_append (l1 l2 : List (Nat × Option SettleKind)) (r : Nat) :
    lookupFut (l1 ++ l2) r =
      (match lookupFut l1 r with
       | some v => some v
       | none => lookupFut l2 r) := by
  induction l1 with
  | nil => rfl
  | cons e rest ih =>
    obtain ⟨k, v⟩ := e
    by_cases h : k = r <;> simp [lookupFut, h, ih]

theorem lookupNat_removeNat_self (l : List (Nat × String)) (r : Nat) :
    lookupNat (removeNat l r) r = none := by
  induction l with
  | nil => rfl
  | cons e rest ih =>
    obtain ⟨k, v⟩ := e
    by_cases h : k = r <;> simp [removeNat, lookupNat, h, ih]

theorem lookupNat_removeNat_other (l : List (Nat × String)) (r x : Nat) (h : ¬ (x = r)) :
    lookupNat (removeNat l r) x = lookupNat l x := by
  induction l with
  | nil => rfl
  | cons e rest ih =>
    obtain ⟨k, v⟩ := e
    by_cases hk : k = r
    · subst hk
      have hrx : ¬ (k = x) := fun hh => h (hh.symm)
      simp [removeNat, lookupNat, hrx, ih]
    · by_cases hkx : k = x <;> simp [removeNat, lookupNat, hk, hkx, ih, h]

theorem removeNat_sublist (l : List (Nat × String)) (r : Nat) :
    List.Sublist (removeNat l r) l := by
  induction l with
  | nil => simp [removeNat]
  | cons e rest ih =>
    obtain ⟨k, v⟩ := e
    by_cases h : k = r
    · simp only [removeNat, h, if_pos]
      exact ih.cons _
    · simp only [removeNat, h, if_neg, not_false_eq_true]
      exact ih.cons₂ _

theorem lookupNat_isSome_of_mem (l : List (Nat × String)) (r : Nat) :
    r ∈ l.map Prod.fst → (lookupNat l r).isSome = true := by
  induction l with
  | nil => intro h; cases h
  | cons e rest ih =>
    intro h
    obtain ⟨k, v⟩ := e
    rcases List.mem_cons.mp h with he | he
    · have hkr : k = r := by simpa using he.symm
      simp [lookupNat, hkr]
    · by_cases hk : k = r <;> simp [lookupNat, hk, ih he]

theorem lookupFut_eq_none_of_not_mem (f : List (Nat × Option SettleKind)) (r : Nat) :
    ¬ (r ∈ f.map Prod.fst) → lookupFut f r = none := by
  induction f with
  | nil => intro _; rfl
  | cons e rest ih =>
    intro h
    obtain ⟨k, v⟩ := e
    simp only [List.map_cons, List.mem_cons, not_or] at h
    have hk : ¬ (k = r) := fun hh => h.1 hh.symm
    simp [lookupFut, hk, ih h.2]

theorem lookupFut_of_mem_nodup (f : List (Nat × Option SettleKind)) (r : Nat)
    (v : Option SettleKind) :
    (f.map Prod.fst).Nodup → (r, v) ∈ f → lookupFut f r = some v := by
  induction f with
  | nil => intro _ hm; cases hm
  | cons e rest ih =>
    intro hnd hm
    obtain ⟨k, w⟩ := e
    simp only [List.map_cons, List.nodup_cons] at hnd
    rcases List.mem_cons.mp hm with he | he
    · cases he
      simp [lookupFut]
    · have hk : ¬ (k = r) := by
        intro hh; subst hh
        exact hnd.1 (List.mem_map_of_mem Prod.fst he)
      simp [lookupFut, hk, ih hnd.2 he]

theorem map_fst_settle (f : List (Nat × Option SettleKind)) (rid : Nat) (k : SettleKind) :
    (settleIfUnsettled f rid k).map Prod.fst = f.map Prod.fst := by
  induction f with
  | nil => rfl
  | cons e rest ih =>
    obtain ⟨i, s⟩ := e
    by_cases hi : i = rid <;> by_cases hs : s = none <;>
      simp [settleIfUnsettled, hi, hs, ih]

theorem map_fst_drain (f : List (Nat × Option SettleKind)) (p : List (Nat × String)) :
    (drainFutures f p).map Prod.fst = f.map Prod.fst := by
  induction f with
  | nil => rfl
  | cons e rest ih =>
    obtain ⟨i, s⟩ := e
    by_cases hp : (lookupNat p i).isSome = true <;> by_cases hs : s = none <;>
      simp [drainFutures, hp, hs, ih]

theorem lookupFut_cons (y : Nat × Option SettleKind) (ys : List (Nat × Option SettleKind))
    (x : Nat) :
    lookupFut (y :: ys) x = (if y.1 = x then some y.2 else lookupFut ys x) := rfl

theorem lookupFut_settle_self (f : List (Nat × Option SettleKind)) (x : Nat) (k : SettleKind) :
    lookupFut (settleIfUnsettled f x k) x = settleVal (lookupFut f x) k := by
  induction f with
  | nil => simp [settleIfUnsettled, lookupFut, settleVal]
  | cons e rest ih =>
    obtain ⟨i, s⟩ := e
    simp only [settleIfUnsettled, lookupFut_cons, apply_ite Prod.fst, apply_ite Prod.snd,
      ite_self]
    by_cases hi : i = x
    · subst hi
      cases s with
      | none => simp [settleVal, lookupFut_cons]
      | some k0 => simp [settleVal, lookupFut_cons]
    · simp [hi, ih]

theorem lookupFut_settle_other (f : List (Nat × Option SettleKind)) (rid : Nat)
    (k : SettleKind) (x : Nat) (hx : ¬ (x = rid)) :
    lookupFut (settleIfUnsettled f rid k) x = lookupFut f x := by
  induction f with
  | nil => rfl
  | cons e rest ih =>
    obtain ⟨i, s⟩ := e
    simp only [settleIfUnsettled, lookupFut_cons, apply_ite Prod.fst, apply_ite Prod.snd,
      ite_self]
    by_cases hix : i = x
    · simp [hix, hx, ih]
    · simp [hix, ih]

theorem lookupFut_drain (f : List (Nat × Option SettleKind)) (p : List (Nat × String))
    (x : Nat) :
    lookupFut (drainFutures f p) x =
      (if (lookupNat p x).isSome = true
       then settleVal (lookupFut f x) SettleKind.exitDrain
       else lookupFut f x) := by
  induction f with
  | nil => by_cases h : (lookupNat p x).isSome = true <;>
      simp [drainFutures, lookupFut, h, settleVal]
  | cons e rest ih =>
    obtain ⟨i, s⟩ := e
    simp only [drainFutures, lookupFut_cons, apply_ite Prod.fst, apply_ite Prod.snd,
      ite_self]
    by_cases hix : i = x
    · subst hix
      by_cases hp : (lookupNat p i).isSome = true
      · cases s with
        | none => simp [hp, settleVal, lookupFut_cons]
        | some k0 => simp [hp, settleVal, lookupFut_cons]
      · simp [hp, lookupFut_cons]
    · by_cases hp0 : (lookupNat p x).isSome = true <;> simp [hix, hp0, ih, lookupFut_cons]

theorem lookupFut_seq_succ_none (st : ReqMachine)
    (ha : st.futures.map Prod.fst = (List.range st.request_seq).map (fun i => i + 1)) :
    lookupFut st.futures (st.request_seq + 1) = none := by
  apply lookupFut_eq_none_of_not_mem
  rw [ha]
  intro hmem
  simp only [List.mem_map, List.mem_range] at hmem
  obtain ⟨i, hi, hieq⟩ := hmem
  omega

theorem ReqInv_init : ReqInv ReqMachine.init := by
  refine ⟨rfl, ?_, List.nodup_nil⟩
  intro rid
  simp [ReqMachine.init, lookupNat, lookupFut]

theorem ReqInv_step (st : ReqMachine) (op : ClientOp) (h : ReqInv st) :
    ReqInv (st.step op) := by
  obtain ⟨ha, hb, hc⟩ := h
  cases op with
  | sendRequest exp =>
    refine ⟨?_, ?_, ?_⟩
    · simp [ReqMachine.step, List.range_succ, ha]
    · intro rid
      simp only [ReqMachine.step]
      rw [lookupNat_append, lookupFut_append]
      cases hlp : lookupNat st.pending rid with
      | some v0 =>
        have hsome : (lookupNat st.pending rid).isSome = true := by simp [hlp]
        have hf := (hb rid).mp hsome
        simp [hf]
      | none =>
        cases hff : lookupFut st.futures rid with
        | some v =>
          have hne : ¬ (st.request_seq + 1 = rid) := by
            intro he
            rw [← he] at hff
            rw [lookupFut_seq_succ_none st ha] at hff
            cases hff
          have hv : ¬ (v = (none : Option SettleKind)) := by
            intro hveq
            subst hveq
            have hp := (hb rid).mpr hff
            rw [hlp] at hp
            simp at hp
          simp [lookupNat, hne, hv]
        | none =>
          by_cases he : st.request_seq + 1 = rid
          · simp [lookupNat, lookupFut, he]
          · simp [lookupNat, lookupFut, he]
    · simp only [ReqMachine.step, List.map_append, List.map_cons, List.map_nil]
      rw [List.nodup_append]
      refine ⟨hc, List.nodup_singleton _, ?_⟩
      intro a hma hmb
      simp only [List.mem_singleton] at hmb
      subst hmb
      have hsome := lookupNat_isSome_of_mem st.pending _ hma
      have hf := (hb _).mp hsome
      rw [lookupFut_seq_succ_none st ha] at hf
      cases hf
  | inboundResponse rid t =>
    cases hl : lookupNat st.pending rid with
    | none =>
      simp only [ReqMachine.step, hl]
      exact ⟨ha, hb, hc⟩
    | some expected =>
      refine ⟨?_, ?_, ?_⟩
      · simp only [ReqMachine.step, hl]
        rw [map_fst_settle]
        exact ha
      · intro r
        simp only [ReqMachine.step, hl]
        by_cases hr : r = rid
        · subst hr
          have hfr : lookupFut st.futures r = some none :=
            (hb r).mp (by simp [hl])
          rw [lookupNat_removeNat_self, lookupFut_settle_self, hfr]
          simp [settleVal]
        · rw [lookupNat_removeNat_other _ _ _ hr, lookupFut_settle_other _ _ _ _ hr]
          exact hb r
      · simp only [ReqMachine.step, hl]
        exact hc.sublist ((removeNat_sublist _ _).map Prod.fst)
  | timeoutFire rid =>
    refine ⟨?_, ?_, ?_⟩
    · simp only [ReqMachine.step]
      rw [map_fst_settle]
      exact ha
    · intro r
      simp only [ReqMachine.step]
      by_cases hr : r = rid
      · subst hr
        rw [lookupNat_removeNat_self, lookupFut_settle_self]
        cases hf : lookupFut st.futures r with
        | none => simp [settleVal]
        | some v =>
          cases v with
          | none => simp [settleVal]
          | some k0 => simp [settleVal]
      · rw [lookupNat_removeNat_other _ _ _ hr, lookupFut_settle_other _ _ _ _ hr]
        exact hb r
    · simp only [ReqMachine.step]
      exact hc.sublist ((removeNat_sublist _ _).map Prod.fst)
  | processExit =>
    refine ⟨?_, ?_, ?_⟩
    · simp only [ReqMachine.step]
      rw [map_fst_drain]
      exact ha
    · intro r
      simp only [ReqMachine.step]
      rw [lookupFut_drain]
      by_cases hp : (lookupNat st.pending r).isSome = true
      · have hf := (hb r).mp hp
        rw [hf]
        simp [lookupNat, hp, settleVal]
      · have hf : ¬ (lookupFut st.futures r = some none) := fun hh => hp ((hb r).mpr hh)
        simp [lookupNat, hp, hf]
    · simp [ReqMachine.step]

theorem ReqInv_run (ops : List ClientOp) : ReqInv (ReqMachine.run ops) := by
  induction ops using List.reverseRecOn with
  | nil => exact ReqInv_init
  | append_singleton ops op ih =>
    have hstep : ReqMachine.run (ops ++ [op]) = (ReqMachine.run ops).step op := by
      simp [ReqMachine.run, List.foldl_append]
    rw [hstep]
    exact ReqInv_step _ _ ih

theorem step_preserves_settled (st : ReqMachine) (op : ClientOp) (r : Nat) (k : SettleKind)
    (h : lookupFut st.futures r = some (some k)) :
    lookupFut (st.step op).futures r = some (some k) := by
  cases op with
  | sendRequest exp =>
    simp only [ReqMachine.step]
    rw [lookupFut_append, h]
  | inboundResponse rid t =>
    simp only [ReqMachine.step]
    cases hl : lookupNat st.pending rid with
    | none => exact h
    | some expected =>
      by_cases hr : r = rid
      · subst hr
        show lookupFut (settleIfUnsettled st.futures r _) r = _
        rw [lookupFut_settle_self, h]
        rfl
      · show lookupFut (settleIfUnsettled st.futures rid _) r = _
        rw [lookupFut_settle_other _ _ _ _ hr]
        exact h
  | timeoutFire rid =>
    simp only [ReqMachine.step]
    by_cases hr : r = rid
    · subst hr
      rw [lookupFut_settle_self, h]
      rfl
    · rw [lookupFut_settle_other _ _ _ _ hr]
      exact h
  | processExit =>
    simp only [ReqMachine.step]
    rw [lookupFut_drain]
    by_cases hp : (lookupNat st.pending r).isSome = true
    · rw [if_pos hp, h]
      rfl
    · rw [if_neg hp]
      exact h

theorem mem_drainFutures (f : List (Nat × Option SettleKind)) (p : List (Nat × String))
    (e : Nat × Option SettleKind) :
    e ∈ drainFutures f p → ∃ i s, (i, s) ∈ f ∧
      e = (if (lookupNat p i).isSome = true
           then (if s = none then (i, some SettleKind.exitDrain) else (i, s))
           else (i, s)) := by
  induction f with
  | nil => intro h; cases h
  | cons e0 rest ih =>
    obtain ⟨i, s⟩ := e0
    intro h
    rcases List.mem_cons.mp h with he | he
    · exact ⟨i, s, List.mem_cons_self _ _, he⟩
    · obtain ⟨i0, s0, hm, heq⟩ := ih he
      exact ⟨i0, s0, List.mem_cons_of_mem _ hm, heq⟩

theorem exit_drains_and_settles (st : ReqMachine) (hinv : ReqInv st) :
    (st.step ClientOp.processExit).pending = []
    ∧ ∀ e ∈ (st.step ClientOp.processExit).futures, ¬ (e.2 = none) := by
  obtain ⟨ha, hb, hc⟩ := hinv
  refine ⟨rfl, ?_⟩
  intro e he
  obtain ⟨i, s, hm, heq⟩ := mem_drainFutures _ _ _ he
  by_cases hp : (lookupNat st.pending i).isSome = true
  · by_cases hs : s = none
    · rw [heq, if_pos hp, if_pos hs]
      simp
    · rw [heq, if_pos hp, if_neg hs]
      exact hs
  · -- the request is not pending, so by the invariant its future is settled
    rw [heq, if_neg hp]
    intro hnone
    have hkeys : (st.futures.map Prod.fst).Nodup := by
      rw [ha]
      exact (List.nodup_range _).map (fun a b hab => by omega)
    have hs : s = none := hnone
    subst hs
    exact hp ((hb i).mpr (lookupFut_of_mem_nodup _ _ _ hkeys hm))

/-- C1.  Request ids form the strictly increasing sequence req_1, req_2, ...
(the n-th send gets id `mkRequestId n`; all ids are distinct); at every
reachable state a request id is in the pending table exactly while its
future is unsettled, so settling by response, timeout or exit drain removes
the entry and an entry never outlives its request; a settled future is never
settled again by any later step (settled exactly once); and the process-exit
drain empties the pending table and leaves every created future settled. -/
theorem claim_C1_request_lifecycle (ops : List ClientOp) :
    ((ReqMachine.run ops).futures.map (fun e => mkRequestId e.1) =
      (List.range (ReqMachine.run ops).request_seq).map (fun i => mkRequestId (i + 1)))
    ∧ (((ReqMachine.run ops).futures.map Prod.fst).Nodup)
    ∧ (∀ rid : Nat, (lookupNat (ReqMachine.run ops).pending rid).isSome = true ↔
        lookupFut (ReqMachine.run ops).futures rid = some none)
    ∧ (∀ (rid : Nat) (k : SettleKind) (op : ClientOp),
        lookupFut (ReqMachine.run ops).futures rid = some (some k) →
        lookupFut (ReqMachine.run (ops ++ [op])).futures rid = some (some k))
    ∧ ((ReqMachine.run (ops ++ [ClientOp.processExit])).pending = []
        ∧ ∀ e ∈ (ReqMachine.run (ops ++ [ClientOp.processExit])).futures,
            ¬ (e.2 = none)) := by
  obtain ⟨ha, hb, hc⟩ := ReqInv_run ops
  have hstep : ∀ op : ClientOp,
      ReqMachine.run (ops ++ [op]) = (ReqMachine.run ops).step op := by
    intro op
    simp [ReqMachine.run, List.foldl_append]
  have hkeys : (((ReqMachine.run ops).futures.map Prod.fst)).Nodup := by
    rw [ha]
    exact (List.nodup_range _).map (fun a b hab => by omega)
  refine ⟨?_, hkeys, hb, ?_, ?_⟩
  · calc (ReqMachine.run ops).futures.map (fun e => mkRequestId e.1)
        = ((ReqMachine.run ops).futures.map Prod.fst).map mkRequestId := by
          rw [List.map_map]; rfl
      _ = (List.range (ReqMachine.run ops).request_seq).map (fun i => mkRequestId (i + 1)) := by
          rw [ha, List.map_map]; rfl
  · intro rid k op hset
    rw [hstep op]
    exact step_preserves_settled _ _ _ _ hset
  · rw [hstep ClientOp.processExit]
    exact exit_drains_and_settles _ (ReqInv_run ops)

/-- C1 witness: the lifecycle theorem at the trace send, matching response,
then a late timeout for the same id (which must not re-settle the future). -/
theorem claim_C1_witness :
    lookupFut (ReqMachine.run ([ClientOp.sendRequest "ok",
        ClientOp.inboundResponse 1 "ok"] ++ [ClientOp.timeoutFire 1])).futures 1 =
      some (some SettleKind.ok) :=
  (claim_C1_request_lifecycle [ClientOp.sendRequest "ok",
      ClientOp.inboundResponse 1 "ok"]).2.2.2.1 1 SettleKind.ok (ClientOp.timeoutFire 1)
    (by decide)

/-! ## Theorems: workflow result resolution -/

theorem pyOr_ne_empty (d : Option String) : ¬ (pyOr d "Workflow failed" = "") := by
  cases d with
  | none => simp [pyOr]
  | some s => by_cases hs : s = "" <;> simp [pyOr, hs]

/-- Every `runFailed` event the line parser emits carries a nonempty error
(the capture is defaulted with `detail or "Workflow failed"`). -/
theorem parse_runFailed_nonempty (line : String) (d : String)
    (h : parse_cli_event line = some (WorkflowEvent.runFailed d)) : ¬ (d = "") := by
  unfold parse_cli_event at h
  cases hr : parse_run_groups line with
  | some g =>
    obtain ⟨status, detail⟩ := g
    simp only [hr] at h
    split_ifs at h <;>
      first
        | (simp only [Option.some.injEq, WorkflowEvent.runFailed.injEq] at h
           rw [← h]
           exact pyOr_ne_empty detail)
        | simp at h
  | none =>
    simp only [hr] at h
    cases hs : parse_step_groups line with
    | some g =>
      obtain ⟨name, status, detail⟩ := g
      simp only [hs] at h
      split_ifs at h <;> simp at h
    | none =>
      simp only [hs] at h
      cases h

theorem find?_congr_mem {α : Type _} (p q : α → Bool) (l : List α)
    (h : ∀ x ∈ l, p x = q x) : l.find? p = l.find? q := by
  induction l with
  | nil => rfl
  | cons a rest ih =>
    have ha := h a (List.mem_cons_self a rest)
    by_cases hp : p a = true
    · rw [List.find?_cons_of_pos _ hp, List.find?_cons_of_pos _ (by rw [← ha]; exact hp)]
    · rw [List.find?_cons_of_neg _ (by simpa using hp),
        List.find?_cons_of_neg _ (by rw [← ha]; simpa using hp)]
      exact ih (fun x hx => h x (List.mem_cons_of_mem _ hx))

/-- C6.  The final workflow result status is "cancelled" when any
run-cancelled event was parsed, else "completed" for exit code 0, else
"failed"; the error is none on success and otherwise the detail of the most
recent run-failed event, else the last output line with non-blank content
(stripped), else the literal "Workflow failed". -/
theorem claim_C6_workflow_result (lines : List String) (rc : Int) :
    ((execute_cli lines rc).status =
      (if (execute_cli lines rc).events.any isRunCancelled then "cancelled"
       else if rc = 0 then "completed" else "failed"))
    ∧ (rc = 0 → (execute_cli lines rc).error = none)
    ∧ (¬ (rc = 0) → (execute_cli lines rc).error = some
        (match (execute_cli lines rc).events.reverse.find? isRunFailed with
         | some (WorkflowEvent.runFailed d) => d
         | _ =>
           match lines.reverse.find? (fun l => pyStrip l != "") with
           | some l => pyStrip l
           | none => "Workflow failed")) := by
  have hcong : (lines.filterMap parse_cli_event).reverse.find? isRunFailedWithError =
      (lines.filterMap parse_cli_event).reverse.find? isRunFailed := by
    apply find?_congr_mem
    intro e he
    rw [List.mem_reverse] at he
    obtain ⟨line, hline, hpe⟩ := List.mem_filterMap.mp he
    cases e with
    | runFailed d =>
      have hne := parse_runFailed_nonempty line d hpe
      simp [isRunFailedWithError, isRunFailed, hne]
    | runStarted => rfl
    | runCompleted => rfl
    | runCancelled => rfl
    | stepStarted n => rfl
    | stepCompleted n => rfl
    | stepFailed n e0 => rfl
    | stepSkipped n => rfl
    | stepRetrying n a => rfl
    | stepNudged n a => rfl
    | stepForceReleased n => rfl
  refine ⟨rfl, ?_, ?_⟩
  · intro h
    simp [execute_cli, resolve_error, h]
  · intro h
    simp only [execute_cli]
    unfold resolve_error
    rw [if_neg h, hcong]
    cases hf : (lines.filterMap parse_cli_event).reverse.find? isRunFailed with
    | some e =>
      have hpe : isRunFailed e = true := List.find?_some hf
      cases e <;> first | rfl | simp [isRunFailed] at hpe
    | none =>
      cases hl : lines.reverse.find? (fun l => pyStrip l != "") with
      | some l => rfl
      | none => rfl

/-- C6 witness: the resolution theorem at a failing run with a run-failed
detail and at a successful run. -/
theorem claim_C6_witness :
    (execute_cli ["[run] failed: one step failed"] 1).error = some "one step failed"
    ∧ (execute_cli ["[run] completed"] 0).error = none := by
  constructor
  · have h := (claim_C6_workflow_result ["[run] failed: one step failed"] 1).2.2 (by decide)
    rw [h]
    decide
  · exact (claim_C6_workflow_result ["[run] completed"] 0).2.1 rfl

/-! ## Theorems: facade resolver tables -/

theorem fPop_eq_some (d : String → Option Nat) (name x : String) (f : Nat)
    (h : fPop d name x = some f) : ¬ (x = name) ∧ d x = some f := by
  unfold fPop at h
  by_cases hx : x = name
  · rw [if_pos hx] at h
    cases h
  · rw [if_neg hx] at h
    exact ⟨hx, h⟩

theorem fSet_eq_some (d : String → Option Nat) (name : String) (fid : Nat) (x : String)
    (f : Nat) (h : fSet d name fid x = some f) :
    (x = name ∧ f = fid) ∨ (¬ (x = name) ∧ d x = some f) := by
  unfold fSet at h
  by_cases hx : x = name
  · rw [if_pos hx] at h
    injection h with h
    exact Or.inl ⟨hx, h.symm⟩
  · rw [if_neg hx] at h
    exact Or.inr ⟨hx, h⟩

theorem fSettleStored_eval_other (fut : Nat → Option (Option String))
    (d : String → Option Nat) (name v : String) (g : Nat)
    (h : ∀ fid, d name = some fid → ¬ (g = fid)) :
    fSettleStored fut d name v g = fut g := by
  unfold fSettleStored
  cases hd : d name with
  | none => rfl
  | some fid => simp [fSettle, h fid hd]

theorem fSettleStored_eval_at (fut : Nat → Option (Option String))
    (d : String → Option Nat) (name v : String) (fid : Nat)
    (hd : d name = some fid) (hu : fut fid = some none) :
    fSettleStored fut d name v fid = some (some v) := by
  unfold fSettleStored
  rw [hd]
  simp [fSettle, hu]

theorem RelayInv_init : RelayInv RelayWaitState.init := by
  refine ⟨fun f _ => rfl, ?_, ?_, ?_, ?_, ?_⟩
  · intro name f h
    cases h
  · intro name f h
    cases h
  · intro n1 n2 f h1 h2
    cases h1
  · intro n1 n2 f h1 h2
    cases h1
  · intro n1 n2 f h1 h2
    cases h1

theorem RelayInv_step (st : RelayWaitState) (op : RelayOp) (h : RelayInv st) :
    RelayInv (st.step op) := by
  obtain ⟨ha, hb, hc, hd, he, hf⟩ := h
  have hfreshE : ∀ nm, ¬ (st.exit_resolvers nm = some st.next_future) := by
    intro nm hcon
    have h1 := hb nm _ hcon
    rw [ha _ (Nat.le_refl _)] at h1
    cases h1
  have hfreshI : ∀ nm, ¬ (st.idle_resolvers nm = some st.next_future) := by
    intro nm hcon
    have h1 := hc nm _ hcon
    rw [ha _ (Nat.le_refl _)] at h1
    cases h1
  cases op with
  | startWaitExit name =>
    refine ⟨?_, ?_, ?_, ?_, ?_, ?_⟩
    · intro f hge
      simp only [RelayWaitState.step] at hge
      have hn : ¬ (f = st.next_future) := by omega
      simp only [RelayWaitState.step, if_neg hn]
      exact ha f (by omega)
    · intro name' f hst
      simp only [RelayWaitState.step] at hst ⊢
      rcases fSet_eq_some _ _ _ _ _ hst with ⟨_, hfd⟩ | ⟨_, hold⟩
      · subst hfd
        simp
      · have hful := hb name' f hold
        have hfn : ¬ (f = st.next_future) := by
          intro he'
          rw [he', ha _ (Nat.le_refl _)] at hful
          cases hful
        rw [if_neg hfn]
        exact hful
    · intro name' f hst
      simp only [RelayWaitState.step] at hst ⊢
      have hful := hc name' f hst
      have hfn : ¬ (f = st.next_future) := by
        intro he'
        rw [he', ha _ (Nat.le_refl _)] at hful
        cases hful
      rw [if_neg hfn]
      exact hful
    · intro n1 n2 f h1 h2
      simp only [RelayWaitState.step] at h1 h2
      rcases fSet_eq_some _ _ _ _ _ h1 with ⟨hx1, hf1⟩ | ⟨hx1, hf1⟩ <;>
        rcases fSet_eq_some _ _ _ _ _ h2 with ⟨hx2, hf2⟩ | ⟨hx2, hf2⟩
      · rw [hx1, hx2]
      · subst hf1
        exact absurd hf2 (hfreshE n2)
      · subst hf2
        exact absurd hf1 (hfreshE n1)
      · exact hd n1 n2 f hf1 hf2
    · intro n1 n2 f h1 h2
      simp only [RelayWaitState.step] at h1 h2
      exact he n1 n2 f h1 h2
    · intro n1 n2 f h1 h2
      simp only [RelayWaitState.step] at h1 h2
      rcases fSet_eq_some _ _ _ _ _ h1 with ⟨hx1, hf1⟩ | ⟨hx1, hf1⟩
      · subst hf1
        exact absurd h2 (hfreshI n2)
      · exact hf n1 n2 f hf1 h2
  | startWaitIdle name =>
    refine ⟨?_, ?_, ?_, ?_, ?_, ?_⟩
    · intro f hge
      simp only [RelayWaitState.step] at hge
      have hn : ¬ (f = st.next_future) := by omega
      simp only [RelayWaitState.step, if_neg hn]
      exact ha f (by omega)
    · intro name' f hst
      simp only [RelayWaitState.step] at hst ⊢
      have hful := hb name' f hst
      have hfn : ¬ (f = st.next_future) := by
        intro he'
        rw [he', ha _ (Nat.le_refl _)] at hful
        cases hful
      rw [if_neg hfn]
      exact hful
    · intro name' f hst
      simp only [RelayWaitState.step] at hst ⊢
      rcases fSet_eq_some _ _ _ _ _ hst with ⟨_, hfd⟩ | ⟨_, hold⟩
      · subst hfd
        simp
      · have hful := hc name' f hold
        have hfn : ¬ (f = st.next_future) := by
          intro he'
          rw [he', ha _ (Nat.le_refl _)] at hful
          cases hful
        rw [if_neg hfn]
        exact hful
    · intro n1 n2 f h1 h2
      simp only [RelayWaitState.step] at h1 h2
      exact hd n1 n2 f h1 h2
    · intro n1 n2 f h1 h2
      simp only [RelayWaitState.step] at h1 h2
      rcases fSet_eq_some _ _ _ _ _ h1 with ⟨hx1, hf1⟩ | ⟨hx1, hf1⟩ <;>
        rcases fSet_eq_some _ _ _ _ _ h2 with ⟨hx2, hf2⟩ | ⟨hx2, hf2⟩
      · rw [hx1, hx2]
      · subst hf1
        exact absurd hf2 (hfreshI n2)
      · subst hf2
        exact absurd hf1 (hfreshI n1)
      · exact he n1 n2 f hf1 hf2
    · intro n1 n2 f h1 h2
      simp only [RelayWaitState.step] at h1 h2
      rcases fSet_eq_some _ _ _ _ _ h2 with ⟨hx2, hf2⟩ | ⟨hx2, hf2⟩
      · subst hf2
        exact absurd h1 (hfreshE n1)
      · exact hf n1 n2 f h1 hf2
  | exitWaitTimeout name =>
    refine ⟨ha, ?_, hc, ?_, he, ?_⟩
    · intro name' f hst
      exact hb name' f (fPop_eq_some _ _ _ _ hst).2
    · intro n1 n2 f h1 h2
      exact hd n1 n2 f (fPop_eq_some _ _ _ _ h1).2 (fPop_eq_some _ _ _ _ h2).2
    · intro n1 n2 f h1 h2
      exact hf n1 n2 f (fPop_eq_some _ _ _ _ h1).2 h2
  | idleWaitTimeout name =>
    refine ⟨ha, hb, ?_, hd, ?_, ?_⟩
    · intro name' f hst
      exact hc name' f (fPop_eq_some _ _ _ _ hst).2
    · intro n1 n2 f h1 h2
      exact he n1 n2 f (fPop_eq_some _ _ _ _ h1).2 (fPop_eq_some _ _ _ _ h2).2
    · intro n1 n2 f h1 h2
      exact hf n1 n2 f h1 (fPop_eq_some _ _ _ _ h2).2
  | evAgentExited name =>
    have hkeep : ∀ g, (∀ fid, st.exit_resolvers name = some fid → ¬ (g = fid)) →
        (∀ fid, st.idle_resolvers name = some fid → ¬ (g = fid)) →
        (st.step (RelayOp.evAgentExited name)).futures g = st.futures g := by
      intro g hE hI
      show fSettleStored (fSettleStored st.futures st.exit_resolvers name "exited")
          st.idle_resolvers name "exited" g = st.futures g
      rw [fSettleStored_eval_other _ _ _ _ _ hI, fSettleStored_eval_other _ _ _ _ _ hE]
    refine ⟨?_, ?_, ?_, ?_, ?_, ?_⟩
    · intro f hge
      rw [hkeep f ?hE ?hI]
      · exact ha f hge
      case hE =>
        intro fid hd2 hh
        have h1 := hb name fid hd2
        rw [← hh, ha f hge] at h1
        cases h1
      case hI =>
        intro fid hd2 hh
        have h1 := hc name fid hd2
        rw [← hh, ha f hge] at h1
        cases h1
    · intro name' f hst
      obtain ⟨hne, hold⟩ := fPop_eq_some _ _ _ _ hst
      rw [hkeep f ?hE ?hI]
      · exact hb name' f hold
      case hE =>
        intro fid hd2 hh
        subst hh
        exact hne (hd name' name f hold hd2)
      case hI =>
        intro fid hd2 hh
        subst hh
        exact hf name' name f hold hd2
    · intro name' f hst
      obtain ⟨hne, hold⟩ := fPop_eq_some _ _ _ _ hst
      rw [hkeep f ?hE ?hI]
      · exact hc name' f hold
      case hE =>
        intro fid hd2 hh
        subst hh
        exact hf name name' f hd2 hold
      case hI =>
        intro fid hd2 hh
        subst hh
        exact hne (he name' name f hold hd2)
    · intro n1 n2 f h1 h2
      exact hd n1 n2 f (fPop_eq_some _ _ _ _ h1).2 (fPop_eq_some _ _ _ _ h2).2
    · intro n1 n2 f h1 h2
      exact he n1 n2 f (fPop_eq_some _ _ _ _ h1).2 (fPop_eq_some _ _ _ _ h2).2
    · intro n1 n2 f h1 h2
      exact hf n1 n2 f (fPop_eq_some _ _ _ _ h1).2 (fPop_eq_some _ _ _ _ h2).2
  | evAgentReleased name =>
    have hkeep : ∀ g, (∀ fid, st.exit_resolvers name = some fid → ¬ (g = fid)) →
        (∀ fid, st.idle_resolvers name = some fid → ¬ (g = fid)) →
        (st.step (RelayOp.evAgentReleased name)).futures g = st.futures g := by
      intro g hE hI
      show fSettleStored (fSettleStored st.futures st.exit_resolvers name "released")
          st.idle_resolvers name "exited" g = st.futures g
      rw [fSettleStored_eval_other _ _ _ _ _ hI, fSettleStored_eval_other _ _ _ _ _ hE]
    refine ⟨?_, ?_, ?_, ?_, ?_, ?_⟩
    · intro f hge
      rw [hkeep f ?hE ?hI]
      · exact ha f hge
      case hE =>
        intro fid hd2 hh
        have h1 := hb name fid hd2
        rw [← hh, ha f hge] at h1
        cases h1
      case hI =>
        intro fid hd2 hh
        have h1 := hc name fid hd2
        rw [← hh, ha f hge] at h1
        cases h1
    · intro name' f hst
      obtain ⟨hne, hold⟩ := fPop_eq_some _ _ _ _ hst
      rw [hkeep f ?hE ?hI]
      · exact hb name' f hold
      case hE =>
        intro fid hd2 hh
        subst hh
        exact hne (hd name' name f hold hd2)
      case hI =>
        intro fid hd2 hh
        subst hh
        exact hf name' name f hold hd2
    · intro name' f hst
      obtain ⟨hne, hold⟩ := fPop_eq_some _ _ _ _ hst
      rw [hkeep f ?hE ?hI]
      · exact hc name' f hold
      case hE =>
        intro fid hd2 hh
        subst hh
        exact hf name name' f hd2 hold
      case hI =>
        intro fid hd2 hh
        subst hh
        exact hne (he name' name f hold hd2)
    · intro n1 n2 f h1 h2
      exact hd n1 n2 f (fPop_eq_some _ _ _ _ h1).2 (fPop_eq_some _ _ _ _ h2).2
    · intro n1 n2 f h1 h2
      exact he n1 n2 f (fPop_eq_some _ _ _ _ h1).2 (fPop_eq_some _ _ _ _ h2).2
    · intro n1 n2 f h1 h2
      exact hf n1 n2 f (fPop_eq_some _ _ _ _ h1).2 (fPop_eq_some _ _ _ _ h2).2
  | evAgentIdle name =>
    have hkeep : ∀ g, (∀ fid, st.idle_resolvers name = some fid → ¬ (g = fid)) →
        (st.step (RelayOp.evAgentIdle name)).futures g = st.futures g := by
      intro g hI
      show fSettleStored st.futures st.idle_resolvers name "idle" g = st.futures g
      rw [fSettleStored_eval_other _ _ _ _ _ hI]
    refine ⟨?_, ?_, ?_, ?_, ?_, ?_⟩
    · intro f hge
      rw [hkeep f ?hI]
      · exact ha f hge
      case hI =>
        intro fid hd2 hh
        have h1 := hc name fid hd2
        rw [← hh, ha f hge] at h1
        cases h1
    · intro name' f hst
      rw [hkeep f ?hI]
      · exact hb name' f hst
      case hI =>
        intro fid hd2 hh
        subst hh
        exact hf name' name f hst hd2
    · intro name' f hst
      obtain ⟨hne, hold⟩ := fPop_eq_some _ _ _ _ hst
      rw [hkeep f ?hI]
      · exact hc name' f hold
      case hI =>
        intro fid hd2 hh
        subst hh
        exact hne (he name' name f hold hd2)
    · intro n1 n2 f h1 h2
      exact hd n1 n2 f h1 h2
    · intro n1 n2 f h1 h2
      exact he n1 n2 f (fPop_eq_some _ _ _ _ h1).2 (fPop_eq_some _ _ _ _ h2).2
    · intro n1 n2 f h1 h2
      exact hf n1 n2 f h1 (fPop_eq_some _ _ _ _ h2).2

theorem RelayInv_run (ops : List RelayOp) : RelayInv (RelayWaitState.run ops) := by
  induction ops using List.reverseRecOn with
  | nil => exact RelayInv_init
  | append_singleton ops op ih =>
    have hstep : RelayWaitState.run (ops ++ [op]) = (RelayWaitState.run ops).step op := by
      simp [RelayWaitState.run, List.foldl_append]
    rw [hstep]
    exact RelayInv_step _ _ ih

/-- C10.  In every reachable facade state: each resolver table maps an agent
name to at most one future (tables are dict-valued; a stored future belongs
to exactly one name); a new `wait_for_exit` / `wait_for_idle` overwrites the
stored future for that name with the freshly created one; an
agent_exited / agent_released / agent_idle event resolves exactly the
currently stored (most recently installed) future and removes the entry;
and a displaced future, no longer stored in either table, is settled by no
step at all, so its waiter can complete only through its own timeout. -/
theorem claim_C10_resolver_overwrite (ops : List RelayOp) :
    (∀ name : String,
      ((RelayWaitState.run ops).step (RelayOp.startWaitExit name)).exit_resolvers name =
        some (RelayWaitState.run ops).next_future
      ∧ ((RelayWaitState.run ops).step (RelayOp.startWaitIdle name)).idle_resolvers name =
        some (RelayWaitState.run ops).next_future)
    ∧ (∀ n1 n2 f, (RelayWaitState.run ops).exit_resolvers n1 = some f →
        (RelayWaitState.run ops).exit_resolvers n2 = some f → n1 = n2)
    ∧ (∀ name fid, (RelayWaitState.run ops).exit_resolvers name = some fid →
        ((RelayWaitState.run ops).step (RelayOp.evAgentExited name)).futures fid =
          some (some "exited")
        ∧ ((RelayWaitState.run ops).step (RelayOp.evAgentExited name)).exit_resolvers name =
          none)
    ∧ (∀ name fid, (RelayWaitState.run ops).exit_resolvers name = some fid →
        ((RelayWaitState.run ops).step (RelayOp.evAgentReleased name)).futures fid =
          some (some "released")
        ∧ ((RelayWaitState.run ops).step (RelayOp.evAgentReleased name)).exit_resolvers name =
          none)
    ∧ (∀ name fid, (RelayWaitState.run ops).idle_resolvers name = some fid →
        ((RelayWaitState.run ops).step (RelayOp.evAgentIdle name)).futures fid =
          some (some "idle")
        ∧ ((RelayWaitState.run ops).step (RelayOp.evAgentIdle name)).idle_resolvers name =
          none)
    ∧ (∀ f, (RelayWaitState.run ops).futures f = some none →
        (∀ nm, ¬ ((RelayWaitState.run ops).exit_resolvers nm = some f)) →
        (∀ nm, ¬ ((RelayWaitState.run ops).idle_resolvers nm = some f)) →
        ∀ op, ((RelayWaitState.run ops).step op).futures f = some none) := by
  obtain ⟨ha, hb, hc, hd, he, hf⟩ := RelayInv_run ops
  refine ⟨?_, hd, ?_, ?_, ?_, ?_⟩
  · intro name
    constructor <;> simp [RelayWaitState.step, fSet]
  · intro name fid hst
    constructor
    · have hinner : fSettleStored (RelayWaitState.run ops).futures
          (RelayWaitState.run ops).exit_resolvers name "exited" fid =
          some (some "exited") :=
        fSettleStored_eval_at _ _ _ _ _ hst (hb name fid hst)
      have houter := fSettleStored_eval_other
        (fSettleStored (RelayWaitState.run ops).futures
          (RelayWaitState.run ops).exit_resolvers name "exited")
        (RelayWaitState.run ops).idle_resolvers name "exited" fid
        (fun fid2 hd2 hh => hf name name fid hst (hh ▸ hd2))
      exact houter.trans hinner
    · simp [RelayWaitState.step, fPop]
  · intro name fid hst
    constructor
    · have hinner : fSettleStored (RelayWaitState.run ops).futures
          (RelayWaitState.run ops).exit_resolvers name "released" fid =
          some (some "released") :=
        fSettleStored_eval_at _ _ _ _ _ hst (hb name fid hst)
      have houter := fSettleStored_eval_other
        (fSettleStored (RelayWaitState.run ops).futures
          (RelayWaitState.run ops).exit_resolvers name "released")
        (RelayWaitState.run ops).idle_resolvers name "exited" fid
        (fun fid2 hd2 hh => hf name name fid hst (hh ▸ hd2))
      exact houter.trans hinner
    · simp [RelayWaitState.step, fPop]
  · intro name fid hst
    constructor
    · exact fSettleStored_eval_at _ _ _ _ _ hst (hc name fid hst)
    · simp [RelayWaitState.step, fPop]
  · intro f hunset hnoE hnoI op
    cases op with
    | startWaitExit nm =>
      by_cases hfn : f = (RelayWaitState.run ops).next_future
      · simp [RelayWaitState.step, hfn]
      · simp [RelayWaitState.step, hfn]
        exact hunset
    | startWaitIdle nm =>
      by_cases hfn : f = (RelayWaitState.run ops).next_future
      · simp [RelayWaitState.step, hfn]
      · simp [RelayWaitState.step, hfn]
        exact hunset
    | exitWaitTimeout nm => exact hunset
    | idleWaitTimeout nm => exact hunset
    | evAgentExited nm =>
      have h1 := fSettleStored_eval_other
        (fSettleStored (RelayWaitState.run ops).futures
          (RelayWaitState.run ops).exit_resolvers nm "exited")
        (RelayWaitState.run ops).idle_resolvers nm "exited" f
        (fun fid hd2 hh => hnoI nm (hh.symm ▸ hd2))
      have h2 := fSettleStored_eval_other (RelayWaitState.run ops).futures
        (RelayWaitState.run ops).exit_resolvers nm "exited" f
        (fun fid hd2 hh => hnoE nm (hh.symm ▸ hd2))
      exact (h1.trans h2).trans hunset
    | evAgentReleased nm =>
      have h1 := fSettleStored_eval_other
        (fSettleStored (RelayWaitState.run ops).futures
          (RelayWaitState.run ops).exit_resolvers nm "released")
        (RelayWaitState.run ops).idle_resolvers nm "exited" f
        (fun fid hd2 hh => hnoI nm (hh.symm ▸ hd2))
      have h2 := fSettleStored_eval_other (RelayWaitState.run ops).futures
        (RelayWaitState.run ops).exit_resolvers nm "released" f
        (fun fid hd2 hh => hnoE nm (hh.symm ▸ hd2))
      exact (h1.trans h2).trans hunset
    | evAgentIdle nm =>
      have h1 := fSettleStored_eval_other (RelayWaitState.run ops).futures
        (RelayWaitState.run ops).idle_resolvers nm "idle" f
        (fun fid hd2 hh => hnoI nm (hh.symm ▸ hd2))
      exact h1.trans hunset

/-- C10 witness: install two exit waiters for the same agent, then deliver
agent_exited: the second (stored) future resolves to "exited" while the
displaced first future stays unsettled. -/
theorem claim_C10_witness :
    ((RelayWaitState.run [RelayOp.startWaitExit "A", RelayOp.startWaitExit "A"]).step
        (RelayOp.evAgentExited "A")).futures 1 = some (some "exited")
    ∧ ((RelayWaitState.run [RelayOp.startWaitExit "A", RelayOp.startWaitExit "A"]).step
        (RelayOp.evAgentExited "A")).futures 0 = some none := by
  constructor
  · exact ((claim_C10_resolver_overwrite [RelayOp.startWaitExit "A",
      RelayOp.startWaitExit "A"]).2.2.1 "A" 1 (by decide)).1
  · refine (claim_C10_resolver_overwrite [RelayOp.startWaitExit "A",
      RelayOp.startWaitExit "A"]).2.2.2.2.2 0 (by decide) ?_ ?_ (RelayOp.evAgentExited "A")
    · intro nm hcon
      by_cases hA : nm = "A"
      · subst hA
        simp [RelayWaitState.run, RelayWaitState.step, RelayWaitState.init, fSet] at hcon
      · simp [RelayWaitState.run, RelayWaitState.step, RelayWaitState.init, fSet, hA] at hcon
    · intro nm hcon
      simp [RelayWaitState.run, RelayWaitState.step, RelayWaitState.init] at hcon

/-! ## Theorems: CLI-argument shaper claims -/

/-- Helper: the shaper with no model prepends exactly the per-CLI defaults. -/
theorem build_args_no_model (cli : String) (args : List String) :
    build_pty_args_with_model cli args none = CLI_DEFAULT_ARGS (cliKey cli) ++ args := rfl

/-- Helper: a list starting with the literal `--model` flag satisfies
`has_model_arg`. -/
theorem has_model_arg_cons_model (m : String) (l : List String) :
    has_model_arg ("--model" :: m :: l) = true := by
  simp [has_model_arg]

/-- C2, counterexample.  The claim says the effective vector for CLI `codex`,
args `["-x"]`, model `gpt-5.2` is
`["-c","check_for_update_on_startup=false","--model","gpt-5.2","-x"]`.
The code instead places the injected model flag before the per-CLI default
arguments, so the claimed vector is not produced. -/
theorem claim_C2_counterexample :
    ¬ (build_pty_args_with_model "codex" ["-x"] (some "gpt-5.2") =
      ["-c", "check_for_update_on_startup=false", "--model", "gpt-5.2", "-x"]) := by
  decide

/-- C2, amended.  For CLI `codex` with caller args `["-x"]` and model
`gpt-5.2` the shaper returns
`["--model","gpt-5.2","-c","check_for_update_on_startup=false","-x"]`
(the model flag goes in front of the per-CLI defaults); and when the caller
args already contain `--model` or `--model=...`, no model flag is injected:
the result is the per-CLI defaults followed by the caller args unchanged. -/
theorem claim_C2_amended :
    build_pty_args_with_model "codex" ["-x"] (some "gpt-5.2") =
      ["--model", "gpt-5.2", "-c", "check_for_update_on_startup=false", "-x"]
    ∧ ∀ (args : List String) (m : String), has_model_arg args = true →
        build_pty_args_with_model "codex" args (some m) =
          ["-c", "check_for_update_on_startup=false"] ++ args := by
  constructor
  · decide
  · intro args m hm
    have hk : cliKey "codex" = "codex" := by decide
    have hmem : ("codex" : String) ∈ CLI_MODEL_FLAG_CLIS := by decide
    have h1 : pyStartsWith "-c" "--model=" = false := by decide
    have h2 : pyStartsWith "check_for_update_on_startup=false" "--model=" = false := by decide
    have hbase : has_model_arg ("-c" :: "check_for_update_on_startup=false" :: args) = true := by
      simp [has_model_arg, h1, h2] at hm ⊢
      exact hm
    by_cases hmm : m = "" <;>
      simp [build_pty_args_with_model, hk, hmm, hmem, hbase, CLI_DEFAULT_ARGS]

/-- C2 witness: the amended theorem applied to caller args that already
carry a `--model=` flag. -/
theorem claim_C2_witness :
    build_pty_args_with_model "codex" ["--model=other"] (some "gpt-5.2") =
      ["-c", "check_for_update_on_startup=false"] ++ ["--model=other"] :=
  claim_C2_amended.2 ["--model=other"] "gpt-5.2" (by decide)

/-- C3, counterexample.  The claim asserts the shaper is idempotent for every
model-aware CLI.  For `codex` (whose per-CLI default prefix is nonempty) a
second application prepends the defaults again, so idempotence fails. -/
theorem claim_C3_counterexample :
    ¬ (build_pty_args_with_model "codex"
        (build_pty_args_with_model "codex" ["-x"] (some "m")) (some "m") =
      build_pty_args_with_model "codex" ["-x"] (some "m")) := by
  decide

/-- C3, amended.  With no model the shaper only prepends the per-CLI default
prefix, leaving the caller argument tail unchanged; and for every CLI whose
per-CLI default prefix is empty (which includes every model-aware CLI except
codex) the shaper is idempotent. -/
theorem claim_C3_amended :
    (∀ (cli : String) (args : List String),
      build_pty_args_with_model cli args none = CLI_DEFAULT_ARGS (cliKey cli) ++ args)
    ∧ (∀ (cli : String) (args : List String) (m : Option String),
        CLI_DEFAULT_ARGS (cliKey cli) = [] →
        build_pty_args_with_model cli (build_pty_args_with_model cli args m) m =
          build_pty_args_with_model cli args m) := by
  constructor
  · intro cli args
    rfl
  · intro cli args m h
    cases m with
    | none => simp [build_pty_args_with_model, h]
    | some s =>
      by_cases hs : s = ""
      · simp [build_pty_args_with_model, h, hs]
      · by_cases hc : cliKey cli ∈ CLI_MODEL_FLAG_CLIS
        · by_cases hm : has_model_arg args = true
          · simp [build_pty_args_with_model, h, hs, hc, hm]
          · simp [build_pty_args_with_model, h, hs, hc, hm, has_model_arg_cons_model]
        · simp [build_pty_args_with_model, h, hs, hc]

/-- C3 witness: the amended theorem applied at CLI `claude` (empty default
prefix), args `["-x"]`, model `opus`. -/
theorem claim_C3_witness :
    build_pty_args_with_model "claude"
        (build_pty_args_with_model "claude" ["-x"] (some "opus")) (some "opus") =
      build_pty_args_with_model "claude" ["-x"] (some "opus") :=
  claim_C3_amended.2 "claude" ["-x"] (some "opus") (by decide)

/-! ## Theorems: shutdown -/

/-- C5, counterexample.  When the broker ignores both the shutdown request
and the terminate signal, `shutdown()` returns right after sending `kill()`:
at that return the pending table still holds the outstanding entry and the
process has not been observed to exit, so the claimed postcondition
"pending is empty and the child is not alive" fails. -/
theorem claim_C5_counterexample :
    ¬ ((clientShutdown ⟨true, true, [2], true⟩ BrokerShutdownBehavior.ignoresSignals).pending = []
       ∧ (clientShutdown ⟨true, true, [2], true⟩ BrokerShutdownBehavior.ignoresSignals).alive = false) := by
  decide

/-- C5, amended.  After `shutdown()` returns the process handle is always
cleared and, if a process existed, the started flag is false; calling it
with no process (never started, or again after a previous call) returns
without error and changes nothing, so repeated calls are safe; and when the
broker exits within the shutdown-wait timeout, the return does guarantee a
drained pending table and a dead process.  Only the escalation paths can
return with pending entries or an unreaped process. -/
theorem claim_C5_amended (st : ShutdownClientState) (beh : BrokerShutdownBehavior) :
    ((clientShutdown st beh).has_process = false)
    ∧ (st.has_process = true → (clientShutdown st beh).started = false)
    ∧ (st.has_process = false → clientShutdown st beh = st)
    ∧ (∀ beh2 : BrokerShutdownBehavior,
        clientShutdown (clientShutdown st beh) beh2 = clientShutdown st beh)
    ∧ (st.has_process = true → beh = BrokerShutdownBehavior.exitsDuringWait →
        (clientShutdown st beh).pending = [] ∧ (clientShutdown st beh).alive = false) := by
  obtain ⟨hp, ha, pend, hs⟩ := st
  cases hp with
  | false =>
    refine ⟨rfl, ?_, ?_, ?_, ?_⟩
    · intro h
      cases h
    · intro _
      rfl
    · intro beh2
      rfl
    · intro h
      cases h
  | true =>
    cases beh with
    | exitsDuringWait =>
      refine ⟨rfl, fun _ => rfl, ?_, fun beh2 => rfl, fun _ _ => ⟨rfl, rfl⟩⟩
      intro h
      cases h
    | exitsOnTerminate monitorRan =>
      refine ⟨rfl, fun _ => rfl, ?_, fun beh2 => rfl, ?_⟩
      · intro h
        cases h
      · intro _ h
        cases h
    | ignoresSignals =>
      refine ⟨rfl, fun _ => rfl, ?_, fun beh2 => rfl, ?_⟩
      · intro h
        cases h
      · intro _ h
        cases h

/-- C5 witness: the amended theorem at a started client whose broker exits
within the shutdown timeout. -/
theorem claim_C5_witness :
    (clientShutdown ⟨true, true, [5], true⟩ BrokerShutdownBehavior.exitsDuringWait).pending = []
    ∧ (clientShutdown ⟨true, true, [5], true⟩ BrokerShutdownBehavior.exitsDuringWait).alive = false :=
  (claim_C5_amended ⟨true, true, [5], true⟩ BrokerShutdownBehavior.exitsDuringWait).2.2.2.2
    (by decide) rfl

/-! ## Theorems: zero-timeout wait primitives -/

/-- C9.  For an agent name still present in the handle registry,
`wait_for_exit(timeout_ms=0)` and `wait_for_idle(timeout_ms=0)` return
"timeout" immediately without installing a resolver (and without consulting
any event: the entry logic reads only the registry and the timeout); only a
name absent from the registry yields the immediate "exited" result. -/
theorem claim_C9_zero_timeout (known_agents : List String) (name : String) :
    (known_agents.contains name = true →
      wait_for_exit_entry known_agents name (some 0) = ⟨some "timeout", false⟩
      ∧ wait_for_idle_entry known_agents name (some 0) = ⟨some "timeout", false⟩)
    ∧ (known_agents.contains name = false →
      wait_for_exit_entry known_agents name (some 0) = ⟨some "exited", false⟩
      ∧ wait_for_idle_entry known_agents name (some 0) = ⟨some "exited", false⟩) := by
  constructor
  · intro h
    have hm : name ∈ known_agents := by simpa using h
    constructor <;> simp [wait_for_exit_entry, wait_for_idle_entry, hm]
  · intro h
    have hm : ¬ (name ∈ known_agents) := by simpa using h
    constructor <;> simp [wait_for_exit_entry, wait_for_idle_entry, hm]

/-- C9 witness: the zero-timeout theorem at a present and at an absent
agent name. -/
theorem claim_C9_witness :
    wait_for_exit_entry ["Analyst"] "Analyst" (some 0) = ⟨some "timeout", false⟩
    ∧ wait_for_idle_entry [] "Ghost" (some 0) = ⟨some "exited", false⟩ :=
  ⟨((claim_C9_zero_timeout ["Analyst"] "Analyst").1 (by decide)).1,
   ((claim_C9_zero_timeout [] "Ghost").2 (by decide)).2⟩

end AgentRelay
